import Mathlib

/-! Verification development for the A/B/N statistical significance engine in
`src/utils/statistical_analysis.py`.

Modelling conventions:
* Python integers are modelled as `ℤ`; Python float arithmetic is modelled as
  exact arithmetic (`ℚ` where only field operations occur, `ℝ` once `sqrt` or
  the normal survival function enters).  In exact real arithmetic no NaN or
  Inf value can arise, so the source's `np.isnan`/`np.isinf` guards are
  vacuously false and are dropped from the embedding.
* `scipy.stats.norm.sf` is modelled by `normSF`, the genuine upper-tail
  integral of the standard normal density.
* `np.random.beta(alpha, beta, size)` draws from the ambient global random
  generator; the embedding threads the randomness explicitly by passing one
  sampling function per call site (`sA` for the first call, `sB` for the
  second), each mapping the two shape parameters and the sample count to the
  list of drawn values.
* `scipy.stats.chi2_contingency` (with its default Yates continuity
  correction for one degree of freedom, whose adjustment magnitude is capped
  at the observed-expected gap) is modelled arithmetically on the 2×K table;
  its tail function `chi2.sf` is passed in as an explicit parameter.  The
  embedding totalises the expected-frequency division with rational division
  (zero when an expected cell is zero, a case scipy instead rejects).
-/

namespace ABSpec

open MeasureTheory Set

/-- Summary record for one variant: display name and the raw (trials,
successes) counts, as handed to the engine by its callers. -/
structure Variant where
  name : List Char
  n : ℤ
  x : ℤ

instance : Inhabited Variant := ⟨⟨[], 0, 0⟩⟩

/-- Observed proportion `x / n if n > 0 else 0`, from the first lines of
`calculate_single_comparison` and `calculate_ab_test`. -/
def pQ (v : Variant) : ℚ :=
  if 0 < v.n then (v.x : ℚ) / (v.n : ℚ) else 0

/-- Pooled proportion `(a.x + b.x) / (a.n + b.n) if a.n + b.n > 0 else 0`. -/
def pooledQ (a b : Variant) : ℚ :=
  if 0 < a.n + b.n then ((a.x : ℚ) + (b.x : ℚ)) / ((a.n : ℚ) + (b.n : ℚ)) else 0

/-- Upper tail (survival function) of the standard normal distribution,
modelling `scipy.stats.norm.sf`. -/
noncomputable def normSF (z : ℝ) : ℝ :=
  (∫ t in Set.Ioi z, Real.exp (-(1/2) * t ^ 2)) / Real.sqrt (2 * Real.pi)

/-- Standard error of the difference in proportions, following the nested
conditional expression of the source: the pooled form when both `n`s are
positive and `0 < pooled < 1`, otherwise the unpooled form when both `n`s
are positive, otherwise `0`. -/
noncomputable def sePair (a b : Variant) : ℝ :=
  if 0 < a.n ∧ 0 < b.n ∧ 0 < pooledQ a b ∧ pooledQ a b < 1 then
    Real.sqrt ((pooledQ a b * (1 - pooledQ a b) * (1 / (a.n : ℚ) + 1 / (b.n : ℚ)) : ℚ))
  else if 0 < a.n ∧ 0 < b.n then
    Real.sqrt ((pQ a * (1 - pQ a) / (a.n : ℚ) + pQ b * (1 - pQ b) / (b.n : ℚ) : ℚ))
  else 0

/-- The z-score `(p_b - p_a) / se if se > 0 else 0`. -/
noncomputable def zPair (a b : Variant) : ℝ :=
  if 0 < sePair a b then ((pQ b : ℝ) - (pQ a : ℝ)) / sePair a b else 0

/-- Two-tailed p-value `2 * sf(|z|)` when `se > 0`, else the default `1.0`.
The source additionally defaults to `1.0` when `z` is NaN or Inf, which
cannot happen in exact real arithmetic. -/
noncomputable def pValuePair (a b : Variant) : ℝ :=
  if 0 < sePair a b then 2 * normSF |zPair a b| else 1

/-- Relative lift in percent, `((p_b - p_a) / p_a) * 100 if p_a > 0 else 0`. -/
def liftQ (a b : Variant) : ℚ :=
  if 0 < pQ a then (pQ b - pQ a) / pQ a * 100 else 0

/-- Fixed Monte-Carlo sample count (`n_simulations = 10000` in the source). -/
def n_simulations : ℕ := 10000

/-- First Beta shape parameter `max(1, x + 1)`. -/
def alphaShape (v : Variant) : ℤ := max 1 (v.x + 1)

/-- Second Beta shape parameter `max(1, n - x + 1)`. -/
def betaShape (v : Variant) : ℤ := max 1 (v.n - v.x + 1)

/-- A sampler maps Beta shape parameters and a sample count to the list of
values drawn; it models one `np.random.beta(alpha, beta, size)` call site. -/
def Sampler : Type := ℤ → ℤ → ℕ → List ℝ

/-- P2BB: the fraction of paired posterior samples in which `b`'s draw
exceeds `a`'s draw (`np.mean(b_posterior > a_posterior)`). -/
noncomputable def p2bbVal (sA sB : Sampler) (a b : Variant) : ℝ :=
  ((((sA (alphaShape a) (betaShape a) n_simulations).zip
      (sB (alphaShape b) (betaShape b) n_simulations)).countP
        (fun q => decide (q.1 < q.2)) : ℕ) : ℝ) / (n_simulations : ℝ)

/-- Result record of `calculate_single_comparison` (the dict it returns). -/
structure Comparison where
  variant_a_name : List Char
  variant_b_name : List Char
  variant_a_p : ℚ
  variant_b_p : ℚ
  relative_lift : ℚ
  p_value : ℝ
  p2bb : ℝ
  significant : Prop
  is_control_comparison : Bool

/-- Embedding of `calculate_single_comparison(variant_a, variant_b,
is_control_comparison)`. -/
noncomputable def calculate_single_comparison (sA sB : Sampler)
    (variant_a variant_b : Variant) (is_control : Bool) : Comparison :=
  ⟨variant_a.name, variant_b.name, pQ variant_a, pQ variant_b,
    liftQ variant_a variant_b, pValuePair variant_a variant_b,
    p2bbVal sA sB variant_a variant_b,
    pValuePair variant_a variant_b < 0.05, is_control⟩

/-- Result record of `calculate_ab_test` (the dict it returns). -/
structure ABTestResult where
  control_p : ℚ
  treatment_p : ℚ
  se : ℝ
  z_score : ℝ
  p_value : ℝ
  relative_lift : ℚ
  p2bb : ℝ

/-- Embedding of `calculate_ab_test(control_n, control_x, treatment_n,
treatment_x)`; its formulas are the same as those of
`calculate_single_comparison` with `a := control`, `b := treatment`, and it
additionally returns `se` and `z_score`. -/
noncomputable def calculate_ab_test (sC sT : Sampler)
    (control_n control_x treatment_n treatment_x : ℤ) : ABTestResult :=
  ⟨pQ ⟨[], control_n, control_x⟩, pQ ⟨[], treatment_n, treatment_x⟩,
    sePair ⟨[], control_n, control_x⟩ ⟨[], treatment_n, treatment_x⟩,
    zPair ⟨[], control_n, control_x⟩ ⟨[], treatment_n, treatment_x⟩,
    pValuePair ⟨[], control_n, control_x⟩ ⟨[], treatment_n, treatment_x⟩,
    liftQ ⟨[], control_n, control_x⟩ ⟨[], treatment_n, treatment_x⟩,
    p2bbVal sC sT ⟨[], control_n, control_x⟩ ⟨[], treatment_n, treatment_x⟩⟩

/-- Embedding of `calculate_all_pairwise_comparisons(variants)`: the nested
loops `for i in range(len)` / `for j in range(i+1, len)` with the flag
`is_control_comparison = (i == 0)`. -/
noncomputable def calculate_all_pairwise_comparisons (sA sB : Sampler)
    (variants : List Variant) : List Comparison :=
  (List.range variants.length).flatMap (fun i =>
    ((List.range variants.length).drop (i + 1)).map (fun j =>
      calculate_single_comparison sA sB
        (variants.getD i default) (variants.getD j default) (i == 0)))

/-- Fallback word-based labelling of `get_smart_label`: replace `-` and `_`
by spaces, split into nonempty words; for a single word take its first three
letters plus its digits, for several words take the word initials plus all
digits of the full name, truncated to four characters. -/
def wordFallback (name : List Char) : List Char :=
  let words := ((name.map (fun c => if c = '-' ∨ c = '_' then ' ' else c)).splitOn ' ').filter
    (fun w => w ≠ [])
  if words.length = 1 then
    let word := words.getD 0 []
    ((word.filter Char.isAlpha).take 3 ++ word.filter Char.isDigit).take 4
  else
    (words.filterMap (fun w => w.head?.bind (fun c => if c.isAlpha then some c else none)) ++
      name.filter Char.isDigit).take 4

/-- Embedding of `get_smart_label(name)`, with Python strings modelled as
character lists.  Names of at most four characters are returned unchanged;
a name containing `-` whose last hyphen-delimited segment is nonempty maps
to that segment truncated to four characters; otherwise the word-based
fallback applies. -/
def get_smart_label (name : List Char) : List Char :=
  if name.length ≤ 4 then name
  else if '-' ∈ name then
    let parts := name.splitOn '-'
    if 2 ≤ parts.length ∧ parts.getLastD [] ≠ [] then (parts.getLastD []).take 4
    else wordFallback name
  else wordFallback name

/-- Clamped success cell of the contingency table:
`x = min(max(0, x), max(0, n))`. -/
def clampConv (v : Variant) : ℤ := min (max 0 v.x) (max 0 v.n)

/-- Clamped failure cell of the contingency table: `max(0, n - x)` with the
clamped `n` and `x`. -/
def clampNonConv (v : Variant) : ℤ := max 0 (max 0 v.n - clampConv v)

/-- Yates continuity adjustment of an observed cell, as scipy applies it for
one degree of freedom: move the observed value toward the expected one by
`min(0.5, |expected - observed|)`. -/
def yatesAdj (o e : ℚ) : ℚ :=
  o + (if 0 < e - o then 1 else if e - o < 0 then -1 else 0) * min (1 / 2) |e - o|

/-- Contribution of one column of the 2×K table to the chi-square
statistic: expected frequencies from the marginals, the Yates adjustment of
the observed cells when there is one degree of freedom, and the two Pearson
terms.  Division by a zero expected frequency is totalised to zero here, so
this models scipy's arithmetic only on tables whose expected frequencies
are all nonzero; scipy raises on the others, which
`calculate_chi_square_test_checked` accounts for via `hasZeroExpected`. -/
def colChi (dof : ℕ) (r1 r2 T : ℚ) (o : ℤ × ℤ) : ℚ :=
  let c : ℚ := ((o.1 + o.2 : ℤ) : ℚ)
  let e1 := r1 * c / T
  let e2 := r2 * c / T
  let a1 := if dof = 1 then yatesAdj (o.1 : ℚ) e1 else (o.1 : ℚ)
  let a2 := if dof = 1 then yatesAdj (o.2 : ℚ) e2 else (o.2 : ℚ)
  (a1 - e1) ^ 2 / e1 + (a2 - e2) ^ 2 / e2

/-- Pearson chi-square statistic of the 2×K contingency table with rows
`conv` and `nonconv`, including scipy's default Yates correction when the
table has one degree of freedom (K = 2). -/
def chi2Stat (conv nonconv : List ℤ) : ℚ :=
  ((conv.zip nonconv).map
    (colChi (conv.length - 1) ((conv.sum : ℤ) : ℚ) ((nonconv.sum : ℤ) : ℚ)
      (((conv.sum : ℤ) : ℚ) + ((nonconv.sum : ℤ) : ℚ)))).sum

/-- Result record of `calculate_chi_square_test` (the dict it returns). -/
structure OmnibusResult where
  chi2 : ℚ
  p_value : ℝ
  dof : ℕ
  significant : Prop

/-- Total model of `calculate_chi_square_test(variants)`, parameterised by
the chi-square upper-tail function `sf` (modelling `scipy.stats.chi2.sf`,
which is applied to the statistic and the degrees of freedom): build the
clamped 2×K table; return the default non-significant result when a row
sums to zero or (a check that can never fire after clamping) some cell is
negative; otherwise run the chi-square test of independence with `K - 1`
degrees of freedom and flag significance at `p < 0.05`.  This total model
agrees with the source only on inputs whose expected table has no zero
cell (e.g. identical 2-variant pairs); on the others scipy raises, which
`calculate_chi_square_test_checked` models faithfully. -/
noncomputable def calculate_chi_square_test (sf : ℚ → ℕ → ℝ)
    (variants : List Variant) : OmnibusResult :=
  let conversions := variants.map clampConv
  let non_conversions := variants.map clampNonConv
  if conversions.sum = 0 ∨ non_conversions.sum = 0 then ⟨0, 1, 0, False⟩
  else if conversions.any (fun c => c < 0) ∨ non_conversions.any (fun c => c < 0) then
    ⟨0, 1, 0, False⟩
  else
    let chi2 := chi2Stat conversions non_conversions
    let dof := variants.length - 1
    let p := sf chi2 dof
    ⟨chi2, p, dof, p < 0.05⟩

/-- Zero-expected-frequency test of scipy's `chi2_contingency`: some cell
of the expected table `outer(rowsums, colsums) / total` is zero, the
condition under which scipy raises `ValueError` instead of returning. -/
def hasZeroExpected (conv nonconv : List ℤ) : Bool :=
  (conv.zip nonconv).any (fun o =>
    decide (((conv.sum : ℤ) : ℚ) * ((o.1 + o.2 : ℤ) : ℚ) /
      (((conv.sum : ℤ) : ℚ) + ((nonconv.sum : ℤ) : ℚ)) = 0) ||
    decide (((nonconv.sum : ℤ) : ℚ) * ((o.1 + o.2 : ℤ) : ℚ) /
      (((conv.sum : ℤ) : ℚ) + ((nonconv.sum : ℤ) : ℚ)) = 0))

/-- Embedding of `calculate_chi_square_test(variants)` that models scipy's
error path: after the source's own guards, `chi2_contingency` raises
`ValueError` when the expected table has a zero cell (reachable for a
clamped `n = 0` variant alongside real data), modelled as `none`; on every
other input it returns the record of the total model. -/
noncomputable def calculate_chi_square_test_checked (sf : ℚ → ℕ → ℝ)
    (variants : List Variant) : Option OmnibusResult :=
  let conversions := variants.map clampConv
  let non_conversions := variants.map clampNonConv
  if conversions.sum = 0 ∨ non_conversions.sum = 0 then some ⟨0, 1, 0, False⟩
  else if conversions.any (fun c => c < 0) ∨ non_conversions.any (fun c => c < 0) then
    some ⟨0, 1, 0, False⟩
  else if hasZeroExpected conversions non_conversions then none
  else
    let chi2 := chi2Stat conversions non_conversions
    let dof := variants.length - 1
    let p := sf chi2 dof
    some ⟨chi2, p, dof, p < 0.05⟩

/-- Division on ℚ returning `none` exactly when the denominator is zero;
used to certify the absence of division by zero. -/
def divQ (x y : ℚ) : Option ℚ := if y = 0 then none else some (x / y)

/-- Division on ℝ returning `none` exactly when the denominator is zero. -/
noncomputable def divR (x y : ℝ) : Option ℝ := if y = 0 then none else some (x / y)

/-- Checked observed proportion: every division of the source expression
`x / n if n > 0 else 0` goes through `divQ`. -/
def pQchecked (v : Variant) : Option ℚ :=
  if 0 < v.n then divQ (v.x : ℚ) (v.n : ℚ) else some 0

/-- Checked pooled proportion. -/
def pooledQchecked (a b : Variant) : Option ℚ :=
  if 0 < a.n + b.n then divQ ((a.x : ℚ) + (b.x : ℚ)) ((a.n : ℚ) + (b.n : ℚ)) else some 0

/-- Checked standard error: the reciprocals `1 / a.n`, `1 / b.n` of the
pooled branch and the two per-variant divisions of the unpooled branch go
through `divQ`. -/
noncomputable def seChecked (a b : Variant) : Option ℝ := do
  let pa ← pQchecked a
  let pb ← pQchecked b
  let pool ← pooledQchecked a b
  if 0 < a.n ∧ 0 < b.n ∧ 0 < pool ∧ pool < 1 then
    let ia ← divQ 1 (a.n : ℚ)
    let ib ← divQ 1 (b.n : ℚ)
    some (Real.sqrt ((pool * (1 - pool) * (ia + ib) : ℚ)))
  else if 0 < a.n ∧ 0 < b.n then
    let ta ← divQ (pa * (1 - pa)) (a.n : ℚ)
    let tb ← divQ (pb * (1 - pb)) (b.n : ℚ)
    some (Real.sqrt ((ta + tb : ℚ)))
  else
    some 0

/-- Checked version of `calculate_single_comparison`: every division of the
source (proportions, pooled proportion, both standard-error branches, the
z-score, the relative lift, and the mean over the fixed `10000` Monte-Carlo
draws) goes through `divQ` / `divR`, which fail on a zero denominator.
The omnibus test's own source code contains no division expression (its
arithmetic happens inside the external `scipy.stats.chi2_contingency`). -/
noncomputable def calculate_single_comparison_checked (sA sB : Sampler)
    (variant_a variant_b : Variant) (is_control : Bool) : Option Comparison := do
  let pa ← pQchecked variant_a
  let pb ← pQchecked variant_b
  let se ← seChecked variant_a variant_b
  let z ← if 0 < se then divR ((pb : ℝ) - (pa : ℝ)) se else some 0
  let p : ℝ := if 0 < se then 2 * normSF |z| else 1
  let lift ← if 0 < pa then (divQ (pb - pa) pa).map (fun q => q * 100) else some 0
  let cnt : ℕ := ((sA (alphaShape variant_a) (betaShape variant_a) n_simulations).zip
      (sB (alphaShape variant_b) (betaShape variant_b) n_simulations)).countP
        (fun q => decide (q.1 < q.2))
  let pb2 ← divR (cnt : ℝ) (n_simulations : ℝ)
  some ⟨variant_a.name, variant_b.name, pa, pb, lift, p, pb2, p < 0.05, is_control⟩

/-- Modelled from the spec (§4.1): the standard error exactly as the spec
words it — pooled form "when `0 < p_pool < 1` and both `n`s are positive",
otherwise the unpooled form, "if that is also unavailable (either `n=0`),
`se = 0`". -/
noncomputable def seSpec (a b : Variant) : ℝ :=
  if 0 < pooledQ a b ∧ pooledQ a b < 1 ∧ 0 < a.n ∧ 0 < b.n then
    Real.sqrt ((pooledQ a b * (1 - pooledQ a b) * (1 / (a.n : ℚ) + 1 / (b.n : ℚ)) : ℚ))
  else if 0 < a.n ∧ 0 < b.n then
    Real.sqrt ((pQ a * (1 - pQ a) / (a.n : ℚ) + pQ b * (1 - pQ b) / (b.n : ℚ) : ℚ))
  else 0

/-- Modelled from the spec (§4.1): z-score `(p_b - p_a) / se if se > 0,
else 0`, stated over the spec's standard error. -/
noncomputable def zSpec (a b : Variant) : ℝ :=
  if 0 < seSpec a b then ((pQ b : ℝ) - (pQ a : ℝ)) / seSpec a b else 0

/-- Modelled from the spec (§4.1): two-tailed p-value `2 * SF(|z|)`,
"defaulting to 1.0 when `se == 0`" (the NaN/Inf escape cannot occur in
exact real arithmetic). -/
noncomputable def pValueSpec (a b : Variant) : ℝ :=
  if seSpec a b = 0 then 1 else 2 * normSF |zSpec a b|

lemma pooledQ_comm (a b : Variant) : pooledQ a b = pooledQ b a := by
  unfold pooledQ
  rw [Int.add_comm a.n b.n, add_comm ((a.x : ℚ)) ((b.x : ℚ)),
    add_comm ((a.n : ℚ)) ((b.n : ℚ))]

lemma sePair_comm (a b : Variant) : sePair a b = sePair b a := by
  unfold sePair
  rw [pooledQ_comm a b, add_comm (1 / (a.n : ℚ)) (1 / (b.n : ℚ)),
    add_comm (pQ a * (1 - pQ a) / (a.n : ℚ)) (pQ b * (1 - pQ b) / (b.n : ℚ))]
  exact if_congr (by tauto) rfl (if_congr and_comm rfl rfl)

lemma zPair_swap (a b : Variant) : zPair b a = -zPair a b := by
  unfold zPair
  rw [sePair_comm b a]
  by_cases h : 0 < sePair a b
  · rw [if_pos h, if_pos h]; ring
  · rw [if_neg h, if_neg h, neg_zero]

lemma pValuePair_comm (a b : Variant) : pValuePair b a = pValuePair a b := by
  unfold pValuePair
  rw [sePair_comm b a, zPair_swap a b, abs_neg]

lemma sePair_nonneg (a b : Variant) : 0 ≤ sePair a b := by
  unfold sePair
  split
  · exact Real.sqrt_nonneg _
  split
  · exact Real.sqrt_nonneg _
  · exact le_refl 0

lemma normSF_nonneg (z : ℝ) : 0 ≤ normSF z := by
  unfold normSF
  refine div_nonneg ?_ (Real.sqrt_nonneg _)
  exact MeasureTheory.setIntegral_nonneg measurableSet_Ioi (fun t _ => (Real.exp_pos _).le)

lemma normSF_le_half {z : ℝ} (hz : 0 ≤ z) : normSF z ≤ 1 / 2 := by
  unfold normSF
  have hpos : 0 < Real.sqrt (2 * Real.pi) := Real.sqrt_pos.mpr (by positivity)
  rw [div_le_iff₀ hpos]
  have hint : MeasureTheory.Integrable (fun t : ℝ => Real.exp (-(1/2) * t ^ 2)) :=
    integrable_exp_neg_mul_sq (by norm_num)
  have h1 : (∫ t in Set.Ioi z, Real.exp (-(1/2) * t ^ 2)) ≤
      ∫ t in Set.Ioi (0:ℝ), Real.exp (-(1/2) * t ^ 2) := by
    refine MeasureTheory.setIntegral_mono_set hint.integrableOn
      (Filter.Eventually.of_forall (fun t => (Real.exp_pos _).le)) ?_
    exact HasSubset.Subset.eventuallyLE (Set.Ioi_subset_Ioi hz)
  have h2 : (∫ t in Set.Ioi (0:ℝ), Real.exp (-(1/2) * t ^ 2)) =
      Real.sqrt (2 * Real.pi) / 2 := by
    rw [integral_gaussian_Ioi]
    congr 1
    rw [div_div_eq_mul_div, div_one]
    ring_nf
  calc (∫ t in Set.Ioi z, Real.exp (-(1/2) * t ^ 2)) ≤
      ∫ t in Set.Ioi (0:ℝ), Real.exp (-(1/2) * t ^ 2) := h1
    _ = Real.sqrt (2 * Real.pi) / 2 := h2
    _ = 1 / 2 * Real.sqrt (2 * Real.pi) := by ring

/-- A concrete variant pair used by closed counterexamples and witnesses. -/
def vA : Variant := ⟨['A'], 10, 1⟩

/-- Second concrete variant for counterexamples and witnesses. -/
def vB : Variant := ⟨['B'], 10, 2⟩

/-- A concrete degenerate sampling function: each call returns the requested
number of zero draws. -/
noncomputable def zeroSampler : Sampler := fun _ _ c => List.replicate c 0

/-- Concrete variant `(n = 100, x = 10)` whose pair with `vD` has an
internal z-score strictly between `10/3` and `4`. -/
def vC : Variant := ⟨['C'], 100, 10⟩

/-- Concrete variant `(n = 100, x = 30)`, the other half of the pair. -/
def vD : Variant := ⟨['D'], 100, 30⟩

/-- C1 counterexample: the claim asserts `lift(a,b) = -lift(b,a)`, but at
`a = (n=10, x=1)`, `b = (n=10, x=2)` the code yields `lift(a,b) = 100`
while `lift(b,a) = -50`, because the relative lift is normalised by the
first argument's proportion. -/
theorem c1_lift_not_negated :
    (calculate_single_comparison zeroSampler zeroSampler vA vB false).relative_lift = 100 ∧
    (calculate_single_comparison zeroSampler zeroSampler vB vA false).relative_lift = -50 ∧
    ¬ ((calculate_single_comparison zeroSampler zeroSampler vA vB false).relative_lift =
      -(calculate_single_comparison zeroSampler zeroSampler vB vA false).relative_lift) := by
  refine ⟨?_, ?_, ?_⟩
  · show liftQ vA vB = 100
    norm_num [liftQ, pQ, vA, vB]
  · show liftQ vB vA = -50
    norm_num [liftQ, pQ, vA, vB]
  · show ¬ (liftQ vA vB = -liftQ vB vA)
    norm_num [liftQ, pQ, vA, vB]

/-- C1 (amended): swapping the two arguments of the pairwise proportion
test leaves the two-tailed p-value unchanged and negates the z-score; the
relative lift is in general not negated by the swap. -/
theorem c1_swap_symmetry (sA sB sA2 sB2 sC sT sC2 sT2 : Sampler)
    (a b : Variant) (f g : Bool) :
    (calculate_single_comparison sA sB a b f).p_value =
      (calculate_single_comparison sA2 sB2 b a g).p_value ∧
    zPair a b = -zPair b a ∧
    (calculate_ab_test sC sT a.n a.x b.n b.x).z_score =
      -(calculate_ab_test sC2 sT2 b.n b.x a.n a.x).z_score := by
  refine ⟨?_, ?_, ?_⟩
  · show pValuePair a b = pValuePair b a
    exact (pValuePair_comm a b).symm
  · exact zPair_swap b a
  · show zPair ⟨[], a.n, a.x⟩ ⟨[], b.n, b.x⟩ = -zPair ⟨[], b.n, b.x⟩ ⟨[], a.n, a.x⟩
    exact zPair_swap ⟨[], b.n, b.x⟩ ⟨[], a.n, a.x⟩

/-- C2: the source's standard error, z-score and p-value coincide with the
spec's formulas — pooled standard error when both `n`s are positive and
`0 < p_pool < 1`, else the unpooled form when both `n`s are positive, else
`0`; `z = (p_b - p_a)/se` when `se > 0` and `0` otherwise; p-value
`2 * SF(|z|)` when `se > 0`, defaulting to `1.0` when `se = 0` (NaN/Inf
cannot arise in exact real arithmetic). -/
theorem c2_formulas_match_spec (a b : Variant) :
    seSpec a b = sePair a b ∧ zSpec a b = zPair a b ∧
    pValueSpec a b = pValuePair a b := by
  have hse : seSpec a b = sePair a b := by
    unfold seSpec sePair
    exact if_congr (by tauto) rfl rfl
  refine ⟨hse, ?_, ?_⟩
  · unfold zSpec zPair
    rw [hse]
  · unfold pValueSpec pValuePair
    have hz : zSpec a b = zPair a b := by unfold zSpec zPair; rw [hse]
    rw [hse, hz]
    rcases (sePair_nonneg a b).lt_or_eq with h | h
    · rw [if_neg (by linarith), if_pos h]
    · rw [if_pos h.symm, if_neg (by rw [← h]; exact lt_irrefl _)]

lemma length_all_pairwise (sA sB : Sampler) (vs : List Variant) :
    (calculate_all_pairwise_comparisons sA sB vs).length = vs.length.choose 2 := by
  unfold calculate_all_pairwise_comparisons
  rw [List.length_flatMap]
  have hmap : (List.map
      (List.length ∘ fun i =>
        ((List.range vs.length).drop (i + 1)).map (fun j =>
          calculate_single_comparison sA sB
            (vs.getD i default) (vs.getD j default) (i == 0)))
      (List.range vs.length)) =
      (List.range vs.length).map (fun i => vs.length - (i + 1)) := by
    refine List.map_congr_left (fun i _ => ?_)
    simp [List.length_drop]
  rw [hmap]
  have hbridge : ((List.range vs.length).map (fun i => vs.length - (i + 1))).sum =
      ∑ i ∈ Finset.range vs.length, (vs.length - (i + 1)) := rfl
  rw [hbridge]
  calc ∑ i ∈ Finset.range vs.length, (vs.length - (i + 1)) =
      ∑ i ∈ Finset.range vs.length, (vs.length - 1 - i) := by
        refine Finset.sum_congr rfl (fun i _ => ?_)
        omega
    _ = ∑ i ∈ Finset.range vs.length, i := Finset.sum_range_reflect (fun i => i) vs.length
    _ = vs.length * (vs.length - 1) / 2 := Finset.sum_range_id vs.length
    _ = vs.length.choose 2 := (Nat.choose_two_right vs.length).symm

/-- C3: the pairwise matrix builder returns one result per unordered pair
`(i, j)` with `i < j` (so `N.choose 2` results), for three variants exactly
the results `(0,1), (0,2), (1,2)` in that order with only the first two
tagged as control comparisons, and the empty list for fewer than two
variants. -/
theorem c3_all_pairs_enumeration (sA sB : Sampler) (vs : List Variant) :
    (vs.length < 2 → calculate_all_pairwise_comparisons sA sB vs = []) ∧
    (calculate_all_pairwise_comparisons sA sB vs).length = vs.length.choose 2 ∧
    (∀ v0 v1 v2 : Variant,
      calculate_all_pairwise_comparisons sA sB [v0, v1, v2] =
        [calculate_single_comparison sA sB v0 v1 true,
         calculate_single_comparison sA sB v0 v2 true,
         calculate_single_comparison sA sB v1 v2 false]) := by
  refine ⟨?_, length_all_pairwise sA sB vs, ?_⟩
  · intro h
    match vs, h with
    | [], _ => rfl
    | [v], _ => rfl
    | v :: w :: t, h => exact absurd h (by simp)
  · intro v0 v1 v2
    rfl

/-- C3 witness: the general theorem applied at the empty input list with
the concrete zero-draw sampler. -/
theorem c3_witness :
    calculate_all_pairwise_comparisons zeroSampler zeroSampler [] = [] :=
  (c3_all_pairs_enumeration zeroSampler zeroSampler []).1 (by decide)

/-- C5: the Bayesian comparison uses Beta shape parameters
`max(1, x + 1)` and `max(1, n - x + 1)` for each side, both of which are at
least `1` (also at `x = 0` or `x = n`); it draws `n_simulations = 10000`
samples per side and P2BB is the fraction of paired draws in which `b`'s
sample exceeds `a`'s sample. -/
theorem c5_bayesian_posterior (sA sB : Sampler) (a b : Variant) (f : Bool) :
    alphaShape a = max 1 (a.x + 1) ∧ betaShape a = max 1 (a.n - a.x + 1) ∧
    1 ≤ alphaShape a ∧ 1 ≤ betaShape a ∧ 1 ≤ alphaShape b ∧ 1 ≤ betaShape b ∧
    n_simulations = 10000 ∧
    (calculate_single_comparison sA sB a b f).p2bb =
      ((((sA (alphaShape a) (betaShape a) n_simulations).zip
        (sB (alphaShape b) (betaShape b) n_simulations)).countP
          (fun q => decide (q.1 < q.2)) : ℕ) : ℝ) / (n_simulations : ℝ) := by
  exact ⟨rfl, rfl, le_max_left 1 _, le_max_left 1 _, le_max_left 1 _, le_max_left 1 _,
    rfl, rfl⟩

lemma two_le_splitOn_length {name : List Char} (h : '-' ∈ name) :
    2 ≤ (name.splitOn '-').length := by
  induction name with
  | nil => simp at h
  | cons c t ih =>
    simp only [List.splitOn] at ih ⊢
    rw [List.splitOnP_cons]
    by_cases hc : c = '-'
    · rw [if_pos (by simp [hc])]
      have hne := List.splitOnP_ne_nil (fun a => a == '-') t
      have hlen : 1 ≤ (t.splitOnP (fun a => a == '-')).length :=
        List.length_pos.mpr hne
      simp only [List.length_cons]
      omega
    · rw [if_neg (by simp [hc])]
      rw [List.length_modifyHead]
      rcases List.mem_cons.mp h with h1 | h1
      · exact absurd h1.symm hc
      · exact ih h1

lemma take_four_length_le (l : List Char) : (l.take 4).length ≤ 4 := by
  rw [List.length_take]
  exact min_le_left _ _

lemma wordFallback_length_le (name : List Char) : (wordFallback name).length ≤ 4 := by
  simp only [wordFallback]
  split
  · exact take_four_length_le _
  · exact take_four_length_le _

/-- C6 counterexample: `"abcde-"` is longer than four characters and
contains `-`, but its last hyphen-delimited segment is empty, so the source
falls through to the word-based fallback and returns `"abc"` instead of the
claimed truncated last segment (the empty string). -/
theorem c6_short_label_counterexample :
    4 < "abcde-".toList.length ∧ '-' ∈ "abcde-".toList ∧
    (("abcde-".toList.splitOn '-').getLastD []).take 4 = [] ∧
    get_smart_label "abcde-".toList = ['a', 'b', 'c'] ∧
    get_smart_label "abcde-".toList ≠
      (("abcde-".toList.splitOn '-').getLastD []).take 4 := by
  refine ⟨by decide, by decide, by decide, by decide, by decide⟩

/-- C6 (amended): names of length at most four are returned unchanged; a
longer name containing `-` whose last hyphen-delimited segment is nonempty
maps to that segment truncated to four characters (otherwise the word-based
fallback applies); `short_label("Variant-Treatment") = "Trea"` and
`short_label("AB") = "AB"`; and the result never exceeds four characters. -/
theorem c6_short_label_behaviour (name : List Char) :
    (name.length ≤ 4 → get_smart_label name = name) ∧
    (4 < name.length → '-' ∈ name → (name.splitOn '-').getLastD [] ≠ [] →
      get_smart_label name = ((name.splitOn '-').getLastD []).take 4) ∧
    get_smart_label "Variant-Treatment".toList = "Trea".toList ∧
    get_smart_label "AB".toList = "AB".toList ∧
    (get_smart_label name).length ≤ 4 := by
  refine ⟨?_, ?_, by decide, by decide, ?_⟩
  · intro h
    unfold get_smart_label
    rw [if_pos h]
  · intro hlen hmem hlast
    unfold get_smart_label
    rw [if_neg (by omega), if_pos hmem,
      if_pos ⟨two_le_splitOn_length hmem, hlast⟩]
  · simp only [get_smart_label]
    split
    · assumption
    split
    · split
      · exact take_four_length_le _
      · exact wordFallback_length_le _
    · exact wordFallback_length_le _

/-- C6 witness: the amended theorem applied at the concrete name
`"Variant-Treatment"`, discharging the hypotheses of its hyphen branch. -/
theorem c6_short_label_witness :
    get_smart_label "Variant-Treatment".toList =
      (("Variant-Treatment".toList.splitOn '-').getLastD []).take 4 :=
  (c6_short_label_behaviour "Variant-Treatment".toList).2.1
    (by decide) (by decide) (by decide)

lemma pValuePair_le_one (a b : Variant) : pValuePair a b ≤ 1 := by
  unfold pValuePair
  split
  · have := normSF_le_half (abs_nonneg (zPair a b))
    linarith
  · norm_num

lemma sePair_vC_vD : sePair vC vD = Real.sqrt (2 / 625) := by
  have hcond : 0 < vC.n ∧ 0 < vD.n ∧ 0 < pooledQ vC vD ∧ pooledQ vC vD < 1 := by
    norm_num [pooledQ, vC, vD]
  unfold sePair
  rw [if_pos hcond]
  norm_num [pooledQ, pQ, vC, vD]

lemma sePair_vC_vD_bounds :
    (1 / 20 : ℝ) < sePair vC vD ∧ sePair vC vD < 3 / 50 := by
  rw [sePair_vC_vD]
  exact ⟨(Real.lt_sqrt (by norm_num)).mpr (by norm_num),
    (Real.sqrt_lt' (by norm_num)).mpr (by norm_num)⟩

lemma zPair_vC_vD_bounds : (10 / 3 : ℝ) < zPair vC vD ∧ zPair vC vD < 4 := by
  obtain ⟨hl, hu⟩ := sePair_vC_vD_bounds
  have hpos : 0 < sePair vC vD := lt_trans (by norm_num) hl
  have hz : zPair vC vD = (1 / 5 : ℝ) / sePair vC vD := by
    unfold zPair
    rw [if_pos hpos]
    norm_num [pQ, vC, vD]
  constructor
  · rw [hz, lt_div_iff₀ hpos]
    linarith
  · rw [hz, div_lt_iff₀ hpos]
    linarith

lemma p2bb_zero_draws (a b : Variant) : p2bbVal zeroSampler zeroSampler a b = 0 := by
  unfold p2bbVal zeroSampler
  have hcnt : ((List.replicate n_simulations (0 : ℝ)).zip
      (List.replicate n_simulations (0 : ℝ))).countP
        (fun q => decide (q.1 < q.2)) = 0 := by
    rw [List.countP_eq_zero]
    rintro ⟨q1, q2⟩ hq
    have hq1 := List.eq_of_mem_replicate (List.of_mem_zip hq).1
    have hq2 := List.eq_of_mem_replicate (List.of_mem_zip hq).2
    subst hq1
    subst hq2
    simp
  rw [hcnt]
  norm_num

/-- C8 counterexample: the claim says the returned record holds the
z-statistic, but the source's dict has no z-score entry — at the pair
`(n=100, x=10)` vs `(n=100, x=30)` the internal z-score lies strictly
between `10/3` and `4`, while every numeric field of the returned record
(the two proportions `1/10` and `3/10`, the lift `200`, the p-value, which
is at most `1`, and the P2BB, here `0`) differs from it. -/
theorem c8_z_not_in_record :
    (10 / 3 : ℝ) < zPair vC vD ∧ zPair vC vD < 4 ∧
    ((calculate_single_comparison zeroSampler zeroSampler vC vD false).variant_a_p : ℝ) ≠
      zPair vC vD ∧
    ((calculate_single_comparison zeroSampler zeroSampler vC vD false).variant_b_p : ℝ) ≠
      zPair vC vD ∧
    ((calculate_single_comparison zeroSampler zeroSampler vC vD false).relative_lift : ℝ) ≠
      zPair vC vD ∧
    (calculate_single_comparison zeroSampler zeroSampler vC vD false).p_value ≠
      zPair vC vD ∧
    (calculate_single_comparison zeroSampler zeroSampler vC vD false).p2bb ≠
      zPair vC vD := by
  obtain ⟨hzl, hzu⟩ := zPair_vC_vD_bounds
  refine ⟨hzl, hzu, ?_, ?_, ?_, ?_, ?_⟩
  · show ((pQ vC : ℚ) : ℝ) ≠ zPair vC vD
    have : ((pQ vC : ℚ) : ℝ) = 1 / 10 := by norm_num [pQ, vC]
    rw [this]
    intro heq
    rw [← heq] at hzl
    norm_num at hzl
  · show ((pQ vD : ℚ) : ℝ) ≠ zPair vC vD
    have : ((pQ vD : ℚ) : ℝ) = 3 / 10 := by norm_num [pQ, vD]
    rw [this]
    intro heq
    rw [← heq] at hzl
    norm_num at hzl
  · show ((liftQ vC vD : ℚ) : ℝ) ≠ zPair vC vD
    have : ((liftQ vC vD : ℚ) : ℝ) = 200 := by norm_num [liftQ, pQ, vC, vD]
    rw [this]
    intro heq
    rw [← heq] at hzu
    norm_num at hzu
  · show pValuePair vC vD ≠ zPair vC vD
    intro heq
    have := pValuePair_le_one vC vD
    rw [heq] at this
    linarith
  · show p2bbVal zeroSampler zeroSampler vC vD ≠ zPair vC vD
    rw [p2bb_zero_draws]
    intro heq
    rw [← heq] at hzl
    norm_num at hzl

/-- C8 (amended): the record returned by the pairwise test holds the two
names, the two observed proportions, the relative lift, the two-tailed
p-value, the P2BB, a significance flag equal to `p_value < 0.05`, and the
flag marking a comparison against the baseline; the z-statistic is
computed internally but not included in the returned record (only
`calculate_ab_test` returns a `z_score` entry). -/
theorem c8_pairwise_record_contents (sA sB : Sampler) (a b : Variant) (f : Bool) :
    (calculate_single_comparison sA sB a b f).variant_a_name = a.name ∧
    (calculate_single_comparison sA sB a b f).variant_b_name = b.name ∧
    (calculate_single_comparison sA sB a b f).variant_a_p = pQ a ∧
    (calculate_single_comparison sA sB a b f).variant_b_p = pQ b ∧
    (calculate_single_comparison sA sB a b f).relative_lift = liftQ a b ∧
    (calculate_single_comparison sA sB a b f).p_value = pValuePair a b ∧
    (calculate_single_comparison sA sB a b f).p2bb = p2bbVal sA sB a b ∧
    ((calculate_single_comparison sA sB a b f).significant ↔
      (calculate_single_comparison sA sB a b f).p_value < 0.05) ∧
    (calculate_single_comparison sA sB a b f).is_control_comparison = f :=
  ⟨rfl, rfl, rfl, rfl, rfl, rfl, rfl, Iff.rfl, rfl⟩

lemma clampConv_nonneg (v : Variant) : 0 ≤ clampConv v :=
  le_min (le_max_left 0 _) (le_max_left 0 _)

lemma clampNonConv_nonneg (v : Variant) : 0 ≤ clampNonConv v := le_max_left 0 _

/-- C4 counterexample: at `n = -3, x = 5` the source clamps the success
cell to `min(max(0, x), max(0, n)) = 0`, while the claim's clamp formula
`min(max(x, 0), n)` gives `-3`; the two policies disagree on inputs with a
negative `n`. -/
theorem c4_clamp_counterexample :
    clampConv ⟨[], -3, 5⟩ = 0 ∧ clampNonConv ⟨[], -3, 5⟩ = 0 ∧
    min (max (5 : ℤ) 0) (-3) = -3 ∧
    clampConv ⟨[], -3, 5⟩ ≠ min (max (5 : ℤ) 0) (-3) := by
  refine ⟨by decide, by decide, by decide, by decide⟩

/-- C4 (amended): for variants with non-negative `n` the clamped cells are
`x = min(max(x,0), n)` and `failures = max(0, n - x)`; the omnibus test
returns the default non-significant result `(chi2 = 0, p = 1, dof = 0,
significant = false)` exactly when the success row or the failure row sums
to zero (the negative-cell check exists in the source but can never fire
after clamping); otherwise, when the expected table has a zero cell (a
clamped `n = 0` variant alongside real data), scipy's `chi2_contingency`
raises and no result is returned; otherwise it runs the chi-square test of
independence on the 2×K table with `K - 1` degrees of freedom, flagging
significance iff `p < 0.05`.  The final conjunct exhibits the raising
input `[(n=5, x=2), (n=0, x=0)]`. -/
theorem c4_omnibus_guard_policy (sf : ℚ → ℕ → ℝ) (variants : List Variant)
    (h : ∀ v ∈ variants, 0 ≤ v.n) :
    (∀ v ∈ variants, clampConv v = min (max v.x 0) v.n ∧
      clampNonConv v = max 0 (v.n - min (max v.x 0) v.n)) ∧
    calculate_chi_square_test_checked sf variants =
      (if (variants.map clampConv).sum = 0 ∨ (variants.map clampNonConv).sum = 0 then
        some ⟨0, 1, 0, False⟩
      else if hasZeroExpected (variants.map clampConv) (variants.map clampNonConv) then
        none
      else
        some ⟨chi2Stat (variants.map clampConv) (variants.map clampNonConv),
          sf (chi2Stat (variants.map clampConv) (variants.map clampNonConv))
            (variants.length - 1),
          variants.length - 1,
          sf (chi2Stat (variants.map clampConv) (variants.map clampNonConv))
            (variants.length - 1) < 0.05⟩) ∧
    calculate_chi_square_test_checked sf [(⟨['a'], 5, 2⟩ : Variant), ⟨['b'], 0, 0⟩] =
      none := by
  refine ⟨?_, ?_, ?_⟩
  · intro v hv
    have hn := h v hv
    constructor
    · unfold clampConv
      omega
    · unfold clampNonConv clampConv
      omega
  · have hconv : (variants.map clampConv).any (fun c => decide (c < 0)) = false := by
      rw [List.any_eq_false]
      intro c hc
      rcases List.mem_map.mp hc with ⟨v, _, rfl⟩
      simpa using not_lt.mpr (clampConv_nonneg v)
    have hnonconv : (variants.map clampNonConv).any (fun c => decide (c < 0)) = false := by
      rw [List.any_eq_false]
      intro c hc
      rcases List.mem_map.mp hc with ⟨v, _, rfl⟩
      simpa using not_lt.mpr (clampNonConv_nonneg v)
    simp only [calculate_chi_square_test_checked]
    by_cases hdeg : (variants.map clampConv).sum = 0 ∨ (variants.map clampNonConv).sum = 0
    · rw [if_pos hdeg, if_pos hdeg]
    · rw [if_neg hdeg, if_neg hdeg, if_neg (by rw [hconv, hnonconv]; simp)]
  · have hcells : ([(⟨['a'], 5, 2⟩ : Variant), ⟨['b'], 0, 0⟩].map clampConv = [2, 0]) ∧
        ([(⟨['a'], 5, 2⟩ : Variant), ⟨['b'], 0, 0⟩].map clampNonConv = [3, 0]) := by
      constructor <;> simp [clampConv, clampNonConv]
    simp only [calculate_chi_square_test_checked, hcells.1, hcells.2]
    rw [if_neg (by decide), if_neg (by decide), if_pos ?_]
    unfold hasZeroExpected
    rw [List.any_eq_true]
    refine ⟨(0, 0), by decide, ?_⟩
    rw [Bool.or_eq_true]
    left
    rw [decide_eq_true_eq]
    norm_num

/-- C4 witness: the amended theorem applied to a concrete one-variant list
with all-converting counts, whose success-failure table is degenerate. -/
theorem c4_omnibus_witness :
    calculate_chi_square_test_checked (fun _ _ => (1 : ℝ)) [(⟨['c'], 3, 3⟩ : Variant)] =
      some ⟨0, 1, 0, False⟩ := by
  have h := (c4_omnibus_guard_policy (fun _ _ => (1 : ℝ))
    [(⟨['c'], 3, 3⟩ : Variant)] (by decide)).2.1
  rw [h, if_pos (Or.inr (by decide))]

lemma yatesAdj_self (o : ℚ) : yatesAdj o o = o := by
  unfold yatesAdj
  simp

lemma colChi_exact (r1 r2 T : ℚ) (c d : ℤ)
    (h1 : r1 * ((c + d : ℤ) : ℚ) / T = (c : ℚ))
    (h2 : r2 * ((c + d : ℤ) : ℚ) / T = (d : ℚ)) :
    colChi 1 r1 r2 T (c, d) = 0 := by
  have h1' : r1 * ((c : ℚ) + (d : ℚ)) / T = (c : ℚ) := by push_cast at h1; exact h1
  have h2' : r2 * ((c : ℚ) + (d : ℚ)) / T = (d : ℚ) := by push_cast at h2; exact h2
  simp [colChi, h1', h2', yatesAdj_self]

lemma chi2Stat_identical (c d : ℤ) (hc : 0 < c) (hd : 0 < d) :
    chi2Stat [c, c] [d, d] = 0 := by
  have hcQ : (0 : ℚ) < (c : ℚ) := by exact_mod_cast hc
  have hdQ : (0 : ℚ) < (d : ℚ) := by exact_mod_cast hd
  have hs1 : (([c, c] : List ℤ).sum : ℤ) = 2 * c := by simp [List.sum_cons]; ring
  have hs2 : (([d, d] : List ℤ).sum : ℤ) = 2 * d := by simp [List.sum_cons]; ring
  have h1 : ((([c, c] : List ℤ).sum : ℤ) : ℚ) * ((c + d : ℤ) : ℚ) /
      (((([c, c] : List ℤ).sum : ℤ) : ℚ) + ((([d, d] : List ℤ).sum : ℤ) : ℚ)) = (c : ℚ) := by
    rw [hs1, hs2]
    push_cast
    rw [div_eq_iff (by linarith : (2 : ℚ) * c + 2 * d ≠ 0)]
    ring
  have h2 : ((([d, d] : List ℤ).sum : ℤ) : ℚ) * ((c + d : ℤ) : ℚ) /
      (((([c, c] : List ℤ).sum : ℤ) : ℚ) + ((([d, d] : List ℤ).sum : ℤ) : ℚ)) = (d : ℚ) := by
    rw [hs1, hs2]
    push_cast
    rw [div_eq_iff (by linarith : (2 : ℚ) * c + 2 * d ≠ 0)]
    ring
  unfold chi2Stat
  rw [show ([c, c] : List ℤ).zip ([d, d] : List ℤ) = [(c, d), (c, d)] from rfl]
  rw [show (([c, c] : List ℤ).length - 1) = 1 from rfl]
  rw [List.map_cons, List.map_cons, List.map_nil]
  rw [colChi_exact _ _ _ _ _ h1 h2]
  simp

/-- C7: the omnibus test on a two-element list of a variant and an
identical copy (same `n` and `x`, any name) is not significant and has
p-value exactly `1`, provided the chi-square tail function sends the zero
statistic at one degree of freedom to `1` (it does: `P(X ≥ 0) = 1`). -/
theorem c7_omnibus_identical_pair (sf : ℚ → ℕ → ℝ) (v w : Variant)
    (hx : 0 ≤ v.x) (hxn : v.x ≤ v.n) (hwn : w.n = v.n) (hwx : w.x = v.x)
    (hsf : sf 0 1 = 1) :
    (calculate_chi_square_test sf [v, w]).p_value = 1 ∧
    ¬ (calculate_chi_square_test sf [v, w]).significant := by
  have hc : clampConv v = v.x := by unfold clampConv; omega
  have hd : clampNonConv v = v.n - v.x := by unfold clampNonConv clampConv; omega
  have hcw : clampConv w = v.x := by unfold clampConv; omega
  have hdw : clampNonConv w = v.n - v.x := by unfold clampNonConv clampConv; omega
  have hmap1 : ([v, w] : List Variant).map clampConv = [v.x, v.x] := by
    simp [hc, hcw]
  have hmap2 : ([v, w] : List Variant).map clampNonConv = [v.n - v.x, v.n - v.x] := by
    simp [hd, hdw]
  simp only [calculate_chi_square_test, hmap1, hmap2]
  by_cases h0 : ([v.x, v.x] : List ℤ).sum = 0 ∨ ([v.n - v.x, v.n - v.x] : List ℤ).sum = 0
  · rw [if_pos h0]
    exact ⟨rfl, fun hfalse => hfalse⟩
  · rw [if_neg h0]
    push_neg at h0
    obtain ⟨h1, h2⟩ := h0
    have hx0 : 0 < v.x := by simp [List.sum_cons] at h1; omega
    have hd0 : 0 < v.n - v.x := by simp [List.sum_cons] at h2; omega
    rw [if_neg (by simp; omega)]
    have hchi : chi2Stat [v.x, v.x] [v.n - v.x, v.n - v.x] = 0 :=
      chi2Stat_identical _ _ hx0 hd0
    constructor
    · show sf (chi2Stat [v.x, v.x] [v.n - v.x, v.n - v.x])
        (([v, w] : List Variant).length - 1) = 1
      rw [hchi]
      exact hsf
    · show ¬ (sf (chi2Stat [v.x, v.x] [v.n - v.x, v.n - v.x])
        (([v, w] : List Variant).length - 1) < 0.05)
      rw [hchi]
      show ¬ (sf 0 1 < 0.05)
      rw [hsf]
      norm_num

/-- C7 witness: the theorem applied to the concrete variant
`(n = 10, x = 3)` against an identically-counted copy, with the constant-one
tail function (which satisfies `sf 0 1 = 1`). -/
theorem c7_omnibus_witness :
    (calculate_chi_square_test (fun _ _ => (1 : ℝ))
      [(⟨['v'], 10, 3⟩ : Variant), ⟨['w'], 10, 3⟩]).p_value = 1 ∧
    ¬ (calculate_chi_square_test (fun _ _ => (1 : ℝ))
      [(⟨['v'], 10, 3⟩ : Variant), ⟨['w'], 10, 3⟩]).significant :=
  c7_omnibus_identical_pair _ _ _ (by decide) (by decide) (by decide) (by decide) rfl

lemma pQchecked_eq (v : Variant) : pQchecked v = some (pQ v) := by
  by_cases h : 0 < v.n
  · have hne : ((v.n : ℚ)) ≠ 0 := Int.cast_ne_zero.mpr h.ne'
    simp [pQchecked, pQ, divQ, h, hne]
  · simp [pQchecked, pQ, divQ, h]

lemma pooledQchecked_eq (a b : Variant) : pooledQchecked a b = some (pooledQ a b) := by
  by_cases h : 0 < a.n + b.n
  · have hne0 : ((a.n + b.n : ℤ) : ℚ) ≠ 0 := Int.cast_ne_zero.mpr h.ne'
    have hne : ((a.n : ℚ) + (b.n : ℚ)) ≠ 0 := by push_cast at hne0; exact hne0
    simp [pooledQchecked, pooledQ, divQ, h, hne]
  · simp [pooledQchecked, pooledQ, divQ, h]

lemma seChecked_eq (a b : Variant) : seChecked a b = some (sePair a b) := by
  simp only [seChecked, pQchecked_eq, pooledQchecked_eq, Option.some_bind]
  by_cases h1 : 0 < a.n ∧ 0 < b.n ∧ 0 < pooledQ a b ∧ pooledQ a b < 1
  · have hna : ((a.n : ℚ)) ≠ 0 := Int.cast_ne_zero.mpr h1.1.ne'
    have hnb : ((b.n : ℚ)) ≠ 0 := Int.cast_ne_zero.mpr h1.2.1.ne'
    simp [sePair, divQ, h1, hna, hnb]
  · by_cases h2 : 0 < a.n ∧ 0 < b.n
    · have hna : ((a.n : ℚ)) ≠ 0 := Int.cast_ne_zero.mpr h2.1.ne'
      have hnb : ((b.n : ℚ)) ≠ 0 := Int.cast_ne_zero.mpr h2.2.ne'
      simp [sePair, divQ, h1, h2, hna, hnb]
      split <;> rfl
    · simp [sePair, h1, h2]

/-- C9: every division in the pairwise test is guarded by a positivity test
on its denominator, so the checked evaluation (in which each division fails
on a zero denominator) always succeeds and agrees with the total one; and a
variant with `n = 0` has observed proportion `0`.  The omnibus test's own
source contains no division expression, so nothing there can divide by
zero. -/
theorem c9_division_guards_total (sA sB : Sampler) (a b : Variant) (f : Bool)
    (nm : List Char) (x : ℤ) :
    calculate_single_comparison_checked sA sB a b f =
      some (calculate_single_comparison sA sB a b f) ∧
    pQ ⟨nm, 0, x⟩ = 0 := by
  have h10 : ((n_simulations : ℕ) : ℝ) ≠ 0 := by norm_num [n_simulations]
  constructor
  · simp only [calculate_single_comparison_checked, pQchecked_eq, seChecked_eq,
      Option.some_bind]
    by_cases hse : 0 < sePair a b
    · by_cases hpa : 0 < pQ a
      · simp [calculate_single_comparison, divR, divQ, hse, hpa, hse.ne', hpa.ne',
          h10, pValuePair, zPair, liftQ, p2bbVal]
      · simp [calculate_single_comparison, divR, divQ, hse, hpa, hse.ne',
          h10, pValuePair, zPair, liftQ, p2bbVal]
    · by_cases hpa : 0 < pQ a
      · simp [calculate_single_comparison, divR, divQ, hse, hpa, hpa.ne',
          h10, pValuePair, zPair, liftQ, p2bbVal]
      · simp [calculate_single_comparison, divR, divQ, hse, hpa,
          h10, pValuePair, zPair, liftQ, p2bbVal]
  · simp [pQ]

/-- C10: with non-negative counts and samplers honouring the requested
sample count, the pairwise result's p-value and P2BB both lie in `[0, 1]`:
the p-value is `2 · SF(|z|) ≤ 2 · 1/2` or the default `1`, and P2BB is a
count of paired draws divided by the number of draws. -/
theorem c10_probability_bounds (sA sB : Sampler) (a b : Variant) (f : Bool)
    (hax : 0 ≤ a.x) (han : 0 ≤ a.n) (hbx : 0 ≤ b.x) (hbn : 0 ≤ b.n)
    (hA : (sA (alphaShape a) (betaShape a) n_simulations).length = n_simulations)
    (hB : (sB (alphaShape b) (betaShape b) n_simulations).length = n_simulations) :
    0 ≤ (calculate_single_comparison sA sB a b f).p_value ∧
    (calculate_single_comparison sA sB a b f).p_value ≤ 1 ∧
    0 ≤ (calculate_single_comparison sA sB a b f).p2bb ∧
    (calculate_single_comparison sA sB a b f).p2bb ≤ 1 := by
  refine ⟨?_, ?_, ?_, ?_⟩
  · show 0 ≤ pValuePair a b
    unfold pValuePair
    split
    · have := normSF_nonneg |zPair a b|
      linarith
    · norm_num
  · show pValuePair a b ≤ 1
    unfold pValuePair
    split
    · have := normSF_le_half (abs_nonneg (zPair a b))
      linarith
    · norm_num
  · show 0 ≤ p2bbVal sA sB a b
    unfold p2bbVal
    positivity
  · show p2bbVal sA sB a b ≤ 1
    unfold p2bbVal
    rw [div_le_one (by norm_num [n_simulations] : (0 : ℝ) < ((n_simulations : ℕ) : ℝ))]
    have hcount : (((sA (alphaShape a) (betaShape a) n_simulations).zip
        (sB (alphaShape b) (betaShape b) n_simulations)).countP
          (fun q => decide (q.1 < q.2))) ≤ n_simulations := by
      calc (((sA (alphaShape a) (betaShape a) n_simulations).zip
          (sB (alphaShape b) (betaShape b) n_simulations)).countP
            (fun q => decide (q.1 < q.2))) ≤
          ((sA (alphaShape a) (betaShape a) n_simulations).zip
            (sB (alphaShape b) (betaShape b) n_simulations)).length :=
          List.countP_le_length _
        _ ≤ n_simulations := by
          rw [List.length_zip, hA, hB]
          simp
    exact_mod_cast hcount

/-- C10 witness: the bounds theorem applied to the concrete pair
`(n=10, x=1)` vs `(n=10, x=2)` with the zero-draw sampler, which returns
exactly the requested number of samples. -/
theorem c10_probability_bounds_witness :
    0 ≤ (calculate_single_comparison zeroSampler zeroSampler vA vB false).p_value ∧
    (calculate_single_comparison zeroSampler zeroSampler vA vB false).p_value ≤ 1 ∧
    0 ≤ (calculate_single_comparison zeroSampler zeroSampler vA vB false).p2bb ∧
    (calculate_single_comparison zeroSampler zeroSampler vA vB false).p2bb ≤ 1 :=
  c10_probability_bounds zeroSampler zeroSampler vA vB false (by decide) (by decide)
    (by decide) (by decide) (by simp [zeroSampler]) (by simp [zeroSampler])

end ABSpec
